import Mathlib

/-!
Verification development for the `allusersync` repository.

The program synchronizes Gerrit account records into a git `All-Users`
repository: per-account config blobs, trees and commits, a shared
external-identity ledger tree/commit, and a batch of reference updates.

The Go sources are shallowly embedded below:
* `gitutil` object-store helpers (`SaveBlob`, `SaveConfig`, `SaveTree`,
  `SaveCommit`) from the `gitutil` source file;
* `saveAccountDetails`, `UpdateRepo`, `getAccountDetails` and the
  account-collection loop of `main` from `main.go` (the newest of the three
  snapshots in the repository, which is the authoritative one).

Modelling decisions:
* git content addressing is idealized: the "hash" of an object is its
  canonical encoding (a `String`).  The specification assumes a perfect,
  collision-free content hash, so identifying the hash with the encoded
  content is faithful for every property considered here.  Entry names for
  external identities, however, use the real SHA-1 (`fmt.Sprintf("%x",
  sha1.Sum(...))` in the source), implemented below, because ordering
  properties of those names matter.
* the object store is a key-value map (association list) from hash to
  object, exactly like go-git's storage; `SetEncodedObject` upserts.
* fallible operations take failure oracles (`String → Bool`) deciding
  which writes fail, standing for I/O errors of the underlying store.
* `time.Now()` is an explicit `Nat` parameter (Unix seconds).
-/

/-! ### Association lists (the model of go maps and of go-git storage) -/

def lookupA {β : Type} : List (String × β) → String → Option β
  | [], _ => none
  | (k, v) :: rest, key => if k = key then some v else lookupA rest key

def setAssoc {β : Type} : List (String × β) → String → β → List (String × β)
  | [], k, v => [(k, v)]
  | (k0, v0) :: rest, k, v =>
      if k0 = k then (k, v) :: rest else (k0, v0) :: setAssoc rest k v

def eraseAssoc {β : Type} (l : List (String × β)) (k : String) : List (String × β) :=
  l.filter (fun p => p.1 ≠ k)

/-! ### Byte-order comparison on names

The specification's canonical order on tree-entry names is the byte-wise
order on the raw (UTF-8) bytes of the name. -/

def utf8Bytes (c : Char) : List Nat :=
  let n := c.toNat
  if n < 128 then [n]
  else if n < 2048 then [192 + n / 64, 128 + n % 64]
  else if n < 65536 then [224 + n / 4096, 128 + (n / 64) % 64, 128 + n % 64]
  else [240 + n / 262144, 128 + (n / 4096) % 64, 128 + (n / 64) % 64, 128 + n % 64]

def strBytes (s : String) : List Nat :=
  (s.data.map utf8Bytes).flatten

def lexLe : List Nat → List Nat → Bool
  | [], _ => true
  | _ :: _, [] => false
  | a :: as, b :: bs => if a < b then true else if b < a then false else lexLe as bs

/-! ### SHA-1 (used by the source for external-identity entry names) -/

def w32 (n : Nat) : Nat := n % 4294967296

def rotl (s x : Nat) : Nat := w32 (x * 2 ^ s + x / 2 ^ (32 - s))

def natXor (a b : Nat) : Nat := a ^^^ b

def sha1K (i : Nat) : Nat :=
  if i < 20 then 1518500249
  else if i < 40 then 1859775393
  else if i < 60 then 2400959708
  else 3395469782

def sha1F (i b c d : Nat) : Nat :=
  if i < 20 then natXor (b &&& c) ((4294967295 - b) &&& d)
  else if i < 40 then natXor (natXor b c) d
  else if i < 60 then (b &&& c) ||| (b &&& d) ||| (c &&& d)
  else natXor (natXor b c) d

def natToBytesBE : Nat → Nat → List Nat
  | 0, _ => []
  | k + 1, n => natToBytesBE k (n / 256) ++ [n % 256]

def bytesToWords : List Nat → List Nat
  | b0 :: b1 :: b2 :: b3 :: rest => (((b0 * 256 + b1) * 256 + b2) * 256 + b3) :: bytesToWords rest
  | _ => []

def extendW : Nat → List Nat → List Nat
  | 0, ws => ws
  | n + 1, ws =>
      let l := ws.length
      let w := rotl 1 (natXor (natXor (ws.getD (l - 3) 0) (ws.getD (l - 8) 0))
                        (natXor (ws.getD (l - 14) 0) (ws.getD (l - 16) 0)))
      extendW n (ws ++ [w])

def sha1Rounds : List Nat → Nat → Nat × Nat × Nat × Nat × Nat → Nat × Nat × Nat × Nat × Nat
  | [], _, st => st
  | w :: ws, i, (a, b, c, d, e) =>
      let t := w32 (rotl 5 a + sha1F i b c d + e + sha1K i + w)
      sha1Rounds ws (i + 1) (t, a, rotl 30 b, c, d)

def sha1Blocks : Nat → List Nat → Nat × Nat × Nat × Nat × Nat → Nat × Nat × Nat × Nat × Nat
  | 0, _, h => h
  | fuel + 1, bytes, (h0, h1, h2, h3, h4) =>
      match bytes with
      | [] => (h0, h1, h2, h3, h4)
      | _ =>
          let block := bytes.take 64
          let ws := extendW 64 (bytesToWords block)
          let (a, b, c, d, e) := sha1Rounds ws 0 (h0, h1, h2, h3, h4)
          sha1Blocks fuel (bytes.drop 64)
            (w32 (h0 + a), w32 (h1 + b), w32 (h2 + c), w32 (h3 + d), w32 (h4 + e))

def sha1Pad (msg : List Nat) : List Nat :=
  let l := msg.length
  let zeros := (119 - l % 64) % 64
  msg ++ [128] ++ List.replicate zeros 0 ++ natToBytesBE 8 (8 * l)

def sha1 (msg : List Nat) : List Nat :=
  let padded := sha1Pad msg
  let (h0, h1, h2, h3, h4) :=
    sha1Blocks padded.length padded (1732584193, 4023233417, 2562383102, 271733878, 3285377520)
  natToBytesBE 4 h0 ++ natToBytesBE 4 h1 ++ natToBytesBE 4 h2 ++ natToBytesBE 4 h3 ++
    natToBytesBE 4 h4

def hexDigit (n : Nat) : Char :=
  if n < 10 then Char.ofNat (48 + n) else Char.ofNat (87 + n)

def bytesToHex (bs : List Nat) : String :=
  String.mk ((bs.map (fun b => [hexDigit (b / 16), hexDigit (b % 16)])).flatten)

/-- `fmt.Sprintf("%x", sha1.Sum([]byte(s)))` from the source. -/
def sha1Hex (s : String) : String := bytesToHex (sha1 (strBytes s))

/-! ### Git data model

`Sig`, `TreeEntry`, `CommitObj` and `GitObj` mirror go-git's
`object.Signature`, `object.TreeEntry`, `object.Commit` and the three
object kinds stored by the program.  Hashes are idealized as canonical
encodings (see the header comment). -/

structure Sig where
  name : String
  email : String
  whenSec : Nat
deriving DecidableEq, Repr

/-- `filemode.Regular` (octal 100644). -/
def regular : Nat := 33188

structure TreeEntry where
  name : String
  mode : Nat
  hash : String
deriving DecidableEq, Repr

structure CommitObj where
  author : Sig
  committer : Sig
  message : String
  treeHash : String
  parentHashes : List String
deriving DecidableEq, Repr

inductive GitObj where
  | blob : String → GitObj
  | tree : List TreeEntry → GitObj
  | commit : CommitObj → GitObj
deriving DecidableEq, Repr

def encodeSig (s : Sig) : String :=
  s.name ++ " <" ++ s.email ++ "> " ++ Nat.repr s.whenSec

def encodeEntry (e : TreeEntry) : String :=
  Nat.repr e.mode ++ " " ++ e.name ++ "\x00" ++ e.hash ++ "\x00"

/-- Canonical encoding of an object.  The exact byte layout of git is not
reproduced; what matters for the verified properties is that the encoding
is a deterministic function of the object's content, distinguishes the
three object kinds by their first character, and exposes a commit's
message at a fixed offset. -/
def encodeObj : GitObj → String
  | .blob d => "blob " ++ d
  | .tree es => "tree " ++ String.join (es.map encodeEntry)
  | .commit c =>
      "commit " ++ c.message ++ "\x00tree " ++ c.treeHash ++ "\x00" ++
        String.join (c.parentHashes.map (fun p => "parent " ++ p ++ "\x00")) ++
        "author " ++ encodeSig c.author ++ "\x00committer " ++ encodeSig c.committer

/-- The object database plus the reference store of the repository.
`objects` maps hash (canonical encoding) to stored object, like go-git's
storage maps; `refs` maps reference name to commit hash. -/
structure Store where
  objects : List (String × GitObj)
  refs : List (String × String)
deriving DecidableEq, Repr

def addObject (st : Store) (o : GitObj) : Store :=
  { st with objects := setAssoc st.objects (encodeObj o) o }

/-- go-git `Storer.SetEncodedObject`: store the object under its content
hash (an upsert).  `fail` is the I/O-failure oracle. -/
def setEncodedObject (fail : String → Bool) (st : Store) (o : GitObj) :
    Store × Except Unit String :=
  if fail (encodeObj o) = true then (st, .error ())
  else (addObject st o, .ok (encodeObj o))

/-- `gitutil.SaveBlob`. -/
def SaveBlob (fail : String → Bool) (st : Store) (data : String) :
    Store × Except Unit String :=
  setEncodedObject fail st (.blob data)

/-! ### go-git config files (`plumbing/format/config`) -/

structure ConfigOption where
  key : String
  value : String
deriving DecidableEq, Repr

structure ConfigSection where
  name : String
  sub : String
  options : List ConfigOption
deriving DecidableEq, Repr

structure Config where
  sections : List ConfigSection
deriving DecidableEq, Repr

def setOptInList : List ConfigOption → String → String → List ConfigOption
  | [], k, v => [⟨k, v⟩]
  | o :: os, k, v => if o.key = k then ⟨k, v⟩ :: os else o :: setOptInList os k v

def setOptInSections : List ConfigSection → String → String → String → String →
    List ConfigSection
  | [], sec, sub, k, v => [⟨sec, sub, [⟨k, v⟩]⟩]
  | s :: ss, sec, sub, k, v =>
      if s.name = sec ∧ s.sub = sub then
        ⟨s.name, s.sub, setOptInList s.options k v⟩ :: ss
      else s :: setOptInSections ss sec sub k v

/-- `config.Config.SetOption` (find-or-create section, upsert key). -/
def Config.setOption (cfg : Config) (sec sub k v : String) : Config :=
  ⟨setOptInSections cfg.sections sec sub k v⟩

def encodeOption (o : ConfigOption) : String :=
  "\t" ++ o.key ++ " = " ++ o.value ++ "\n"

def encodeSection (s : ConfigSection) : String :=
  (if s.sub = "" then "[" ++ s.name ++ "]\n"
   else "[" ++ s.name ++ " \"" ++ s.sub ++ "\"]\n") ++
    String.join (s.options.map encodeOption)

def encodeConfig (c : Config) : String :=
  String.join (c.sections.map encodeSection)

/-- `gitutil.SaveConfig`: encode the config and save it as a blob. -/
def SaveConfig (fail : String → Bool) (st : Store) (cfg : Config) :
    Store × Except Unit String :=
  SaveBlob fail st (encodeConfig cfg)

/-! ### Tree sorting and saving -/

/-- Byte order on entry names, the canonical tree order of the spec. -/
def entryLe (a b : TreeEntry) : Prop :=
  lexLe (strBytes a.name) (strBytes b.name) = true

instance : DecidableRel entryLe := fun a b => by
  unfold entryLe; infer_instance

/-- Modelled from the spec: the body of `gitutil.SortTreeEntries` is not
among the provided sources (only its call site in `SaveTree` is).  The
spec fixes its behavior: sort the entries by the byte order on raw entry
names. -/
def SortTreeEntries (es : List TreeEntry) : List TreeEntry :=
  List.insertionSort entryLe es

/-- `gitutil.SaveTree`: sort the entries, encode the tree, store it. -/
def SaveTree (fail : String → Bool) (st : Store) (es : List TreeEntry) :
    Store × Except Unit String :=
  setEncodedObject fail st (.tree (SortTreeEntries es))

/-- `gitutil.SaveCommit`. -/
def SaveCommit (fail : String → Bool) (st : Store) (c : CommitObj) :
    Store × Except Unit String :=
  setEncodedObject fail st (.commit c)

/-- The spec's deleted-marker: an entry whose target is the zero hash
(`plumbing.ZeroHash`, used as the deletion marker by the repository's
test helper `TestMapToEntries`). -/
def zeroHash : String := "0000000000000000000000000000000000000000"

def mergeGo : Nat → List TreeEntry → List TreeEntry → List TreeEntry
  | 0, base, us => base ++ us
  | _ + 1, [], us => us.filter (fun u => u.hash ≠ zeroHash)
  | _ + 1, b :: bs, [] => b :: bs
  | n + 1, b :: bs, u :: us =>
      if lexLe (strBytes b.name) (strBytes u.name) = true then
        if b.name = u.name then
          if u.hash = zeroHash then mergeGo n bs us
          else u :: mergeGo n bs us
        else b :: mergeGo n bs (u :: us)
      else
        if u.hash = zeroHash then mergeGo n (b :: bs) us
        else u :: mergeGo n (b :: bs) us

/-- Modelled from the spec: the body of `gitutil.PatchTree` is not among
the provided sources (only its call sites are).  The spec fixes the
algorithm: a merge-join of the base tree's entries with the batch of
upserts/deletes (update wins on equal names, zero-hash entries delete,
deleting an absent name is a no-op), with the result re-sorted by the
canonical byte order and persisted through the tree-saving routine.  The
sortedness precondition on `updates` is stated by the spec but not
enforced at run time. -/
def mergeEntries (base updates : List TreeEntry) : List TreeEntry :=
  mergeGo (base.length + updates.length + 1) base updates

def PatchTree (fail : String → Bool) (st : Store) (base : List TreeEntry)
    (updates : List TreeEntry) : Store × Except Unit String :=
  SaveTree fail st (mergeEntries base updates)

/-! ### main.go data types -/

/-- `gerrit.AccountDetailInfo` (the fields the program reads).  Gerrit
account ids are positive integers; `Nat` models the Go `int`. -/
structure AccountDetailInfo where
  accountID : Nat
  name : String
  email : String
deriving DecidableEq, Repr

/-- `gerrit.AccountExternalIdInfo` (the fields the program reads). -/
structure AccountExternalIdInfo where
  identity : String
  emailAddress : String
deriving DecidableEq, Repr

structure AccountInfo where
  account : AccountDetailInfo
  extIDs : List AccountExternalIdInfo
deriving DecidableEq, Repr

structure RefUpdate where
  newID : String
deriving DecidableEq, Repr

/-- `main.UpdateRepo`: apply the accumulated reference transaction entry
by entry.  A `none` update removes the reference and its error is
discarded by the source; a failing `SetReference` aborts immediately,
returning the error with the updates applied so far left in place.
The Go source iterates a map (unspecified order); the model fixes the
iteration order to the list order of the accumulated entries. -/
def UpdateRepo (failSet failRemove : String → Bool) (refs : List (String × String)) :
    List (String × Option RefUpdate) → List (String × String) × Option Unit
  | [] => (refs, none)
  | (name, none) :: rest =>
      UpdateRepo failSet failRemove
        (if failRemove name = true then refs else eraseAssoc refs name) rest
  | (name, some u) :: rest =>
      if failSet name = true then (refs, some ())
      else UpdateRepo failSet failRemove (setAssoc refs name u.newID) rest

/-- `main.newSig` with `time.Now()` made explicit. -/
def newSig (now : Nat) : Sig :=
  ⟨"allusersync", "allusersync@invalid", now⟩

/-- `%02d` of `fmt.Sprintf`. -/
def pad2 (n : Nat) : String :=
  if n < 10 then "0" ++ Nat.repr n else Nat.repr n

/-- `fmt.Sprintf("refs/users/%02d/%d", id%100, id)`. -/
def uidRefName (aid : Nat) : String :=
  "refs/users/" ++ pad2 (aid % 100) ++ "/" ++ Nat.repr aid

def extRefName : String := "refs/meta/external-ids"

/-- The account config built at the top of the per-account loop. -/
def accountConfig (a : AccountDetailInfo) : Config :=
  (Config.setOption (Config.setOption ⟨[]⟩ "account" "" "fullName" a.name)
    "account" "" "preferredEmail" a.email)

/-- The per-identity config: `accountId`, plus `email` when non-empty. -/
def extIdConfig (aid : Nat) (e : AccountExternalIdInfo) : Config :=
  let c := Config.setOption ⟨[]⟩ "externalId" e.identity "accountId" (Nat.repr aid)
  if e.emailAddress = "" then c
  else Config.setOption c "externalId" e.identity "email" e.emailAddress

/-- The tree entry appended to the ledger batch for one external id. -/
def extIdEntry (aid : Nat) (e : AccountExternalIdInfo) : TreeEntry :=
  ⟨sha1Hex e.identity, regular, encodeObj (.blob (encodeConfig (extIdConfig aid e)))⟩

/-- Derived hash of the single-entry account tree `{"account.config": blob}`. -/
def accountTreeHash (a : AccountDetailInfo) : String :=
  encodeObj (.tree [⟨"account.config", regular,
    encodeObj (.blob (encodeConfig (accountConfig a)))⟩])

/-- The in-memory accumulation of one `saveAccountDetails` run: the store
being written, the `newEntries` slice, and the `trans.updates` map. -/
structure BatchState where
  st : Store
  newEntries : List TreeEntry
  updates : List (String × Option RefUpdate)
deriving Repr

/-- The `for _, e := range inf.extIDs` loop body of `saveAccountDetails`:
save a per-identity config blob and append a ledger tree entry named by
the SHA-1 of the identity key. -/
def extIDsPhase (fail : String → Bool) (aid : Nat) :
    Store × List TreeEntry → List AccountExternalIdInfo →
    (Store × List TreeEntry) × Option Unit
  | acc, [] => (acc, none)
  | (st, ne), e :: es =>
      match SaveConfig fail st (extIdConfig aid e) with
      | (st2, .error _) => ((st2, ne), some ())
      | (st2, .ok bid) =>
          extIDsPhase fail aid (st2, ne ++ [⟨sha1Hex e.identity, regular, bid⟩]) es

/-- The `for _, inf := range infos` loop body of `saveAccountDetails`
(main.go lines 123-205): build the account blob, tree and commit, skip
the account (continue) when the derived tree equals the existing
commit's tree, stage the reference update, then process the external
ids. -/
def processAccount (fail : String → Bool) (s : Sig) (bs : BatchState) (inf : AccountInfo) :
    BatchState × Option Unit :=
  match SaveConfig fail bs.st (accountConfig inf.account) with
  | (st1, .error _) => ({ bs with st := st1 }, some ())
  | (st1, .ok blobId) =>
      match SaveTree fail st1 [⟨"account.config", regular, blobId⟩] with
      | (st2, .error _) => ({ bs with st := st2 }, some ())
      | (st2, .ok treeId) =>
          match lookupA st2.refs (uidRefName inf.account.accountID) with
          | some oldHash =>
              match lookupA st2.objects oldHash with
              | some (.commit oldC) =>
                  if oldC.treeHash = treeId then
                    ({ bs with st := st2 }, none)
                  else
                    match SaveCommit fail st2 ⟨s, s, "update account", treeId, [oldHash]⟩ with
                    | (st3, .error _) => ({ bs with st := st3 }, some ())
                    | (st3, .ok cid) =>
                        match extIDsPhase fail inf.account.accountID
                            (st3, bs.newEntries) inf.extIDs with
                        | ((st4, ne), err) =>
                            (⟨st4, ne, setAssoc bs.updates
                              (uidRefName inf.account.accountID) (some ⟨cid⟩)⟩, err)
              | _ => ({ bs with st := st2 }, some ())
          | none =>
              match SaveCommit fail st2 ⟨s, s, "update account", treeId, []⟩ with
              | (st3, .error _) => ({ bs with st := st3 }, some ())
              | (st3, .ok cid) =>
                  match extIDsPhase fail inf.account.accountID
                      (st3, bs.newEntries) inf.extIDs with
                  | ((st4, ne), err) =>
                      (⟨st4, ne, setAssoc bs.updates
                        (uidRefName inf.account.accountID) (some ⟨cid⟩)⟩, err)

def batchPhase (fail : String → Bool) (s : Sig) :
    BatchState → List AccountInfo → BatchState × Option Unit
  | bs, [] => (bs, none)
  | bs, inf :: infos =>
      match processAccount fail s bs inf with
      | (bs2, none) => batchPhase fail s bs2 infos
      | (bs2, some e) => (bs2, some e)

/-- `main.saveAccountDetails`: resolve the ledger reference and commit,
run the per-account loop, patch the ledger tree with the accumulated
entries, save a new ledger commit (unconditionally), stage the ledger
reference update when there was no previous ledger commit or the tree
changed, and apply the reference transaction.  Errors propagate with the
object writes performed so far kept (the store is durable) and are
returned to `main`. -/
def saveAccountDetails (fail failSet failRemove : String → Bool) (now : Nat)
    (st : Store) (infos : List AccountInfo) : Store × Option Unit :=
  let s := newSig now
  match (match lookupA st.refs extRefName with
         | none => Except.ok none
         | some h =>
             match lookupA st.objects h with
             | some (.commit c) => Except.ok (some (h, c))
             | _ => Except.error ()) with
  | .error _ => (st, some ())
  | .ok extCommit =>
      match batchPhase fail s ⟨st, [], []⟩ infos with
      | (bs, some _) => (bs.st, some ())
      | (bs, none) =>
          match (match extCommit with
                 | none => Except.ok ([] : List TreeEntry)
                 | some (_, c) =>
                     match lookupA bs.st.objects c.treeHash with
                     | some (.tree es) => Except.ok es
                     | _ => Except.error ()) with
          | .error _ => (bs.st, some ())
          | .ok prevEntries =>
              match PatchTree fail bs.st prevEntries bs.newEntries with
              | (st5, .error _) => (st5, some ())
              | (st5, .ok treeId) =>
                  let parents := match extCommit with
                    | some (h, _) => [h]
                    | none => []
                  match SaveCommit fail st5 ⟨s, s, "update external IDs", treeId, parents⟩ with
                  | (st6, .error _) => (st6, some ())
                  | (st6, .ok cid) =>
                      let updates := match extCommit with
                        | none => setAssoc bs.updates extRefName (some ⟨cid⟩)
                        | some (_, c) =>
                            if c.treeHash ≠ treeId then
                              setAssoc bs.updates extRefName (some ⟨cid⟩)
                            else bs.updates
                      match UpdateRepo failSet failRemove st6.refs updates with
                      | (refs2, err) => ({ st6 with refs := refs2 }, err)

/-! ### The fetch path of `main` -/

/-- The outcome of the `GetAccountDetails` REST call: the decoded body,
the HTTP reply (`none` models a nil reply), and whether the call
returned an error. -/
structure DetailsResp where
  details : AccountDetailInfo
  replyStatus : Option Nat
  failed : Bool
deriving DecidableEq, Repr

/-- The outcome of the `GetAccountExternalIDs` REST call. -/
structure ExtIDsResp where
  extIDs : List AccountExternalIdInfo
  failed : Bool
deriving DecidableEq, Repr

/-- `main.getAccountDetails` (rate limiting omitted): a 404 reply is
checked first and yields `(nil, nil)`; any other error yields
`(nil, err)`; success fetches the external ids as well. -/
def getAccountDetails (d : DetailsResp) (x : ExtIDsResp) : Option AccountInfo × Bool :=
  if d.replyStatus = some 404 then (none, false)
  else if d.failed = true then (none, true)
  else if x.failed = true then (none, true)
  else (some ⟨d.details, x.extIDs⟩, false)

inductive RunOutcome where
  | fatal : RunOutcome
  | collected : List AccountInfo → RunOutcome
deriving DecidableEq, Repr

/-- The account-collection loop of `main` (lines 291-303): for each id,
`val, err := getAccountDetails(...)`; `if val == nil { continue }` runs
before `if err != nil { log.Fatal(err) }`. -/
def collectInfos : List (DetailsResp × ExtIDsResp) → List AccountInfo → RunOutcome
  | [], acc => .collected acc
  | (d, x) :: rest, acc =>
      match getAccountDetails d x with
      | (none, _) => collectInfos rest acc
      | (some _, true) => .fatal
      | (some v, false) => collectInfos rest (acc ++ [v])

/-- The never-failing oracle (healthy storage). -/
def nofail : String → Bool := fun _ => false

/-! ### Concrete scenario inputs and runs

Scenario A of the spec: an empty repository and one account
`{id:7, name:"A", email:"a@x"}` with no external ids. -/

def acct7 : AccountDetailInfo := ⟨7, "A", "a@x"⟩

def infA : AccountInfo := ⟨acct7, []⟩

/-- The first (scenario A) run, at time 0, on an empty repository. -/
def runA : Store × Option Unit :=
  saveAccountDetails nofail nofail nofail 0 ⟨[], []⟩ [infA]

/-- The second run with identical input records, at time `t`. -/
def runB (t : Nat) : Store × Option Unit :=
  saveAccountDetails nofail nofail nofail t runA.1 [infA]

def acctBlobA : GitObj := .blob (encodeConfig (accountConfig acct7))

def acctTreeA : GitObj := .tree [⟨"account.config", regular, encodeObj acctBlobA⟩]

def acctCommitA : GitObj :=
  .commit ⟨newSig 0, newSig 0, "update account", encodeObj acctTreeA, []⟩

def ledgerTreeA : GitObj := .tree []

def ledgerCommitA : GitObj :=
  .commit ⟨newSig 0, newSig 0, "update external IDs", encodeObj ledgerTreeA, []⟩

/-- The ledger commit saved by the second run at time `t`: same (empty)
tree, but chained to the first run's ledger commit and carrying the new
timestamp. -/
def ledgerCommitB (t : Nat) : GitObj :=
  .commit ⟨newSig t, newSig t, "update external IDs", encodeObj ledgerTreeA,
    [encodeObj ledgerCommitA]⟩

/-- Account 7 with one external id, identity key "a". -/
def inf7a : AccountInfo := ⟨acct7, [⟨"a", "e@x"⟩]⟩

/-- The ledger update batch accumulated when re-syncing account 7 (already
stored by `runA` with an unchanged account config) that now owns one
external id. -/
def batch7a : List TreeEntry :=
  (batchPhase nofail (newSig 1) ⟨runA.1, [], []⟩ [inf7a]).1.newEntries

/-- Account 7 with two external ids whose SHA-1 names descend: the name
of identity "b" (e9d7...) is greater than the name of identity "a"
(86f7...). -/
def infBA : AccountInfo := ⟨acct7, [⟨"b", ""⟩, ⟨"a", ""⟩]⟩

/-- The ledger update batch the orchestrator hands to the tree patcher
for `infBA` on an empty repository. -/
def batchBA : List TreeEntry :=
  (batchPhase nofail (newSig 0) ⟨⟨[], []⟩, [], []⟩ [infBA]).1.newEntries

def isSortedByName : List TreeEntry → Bool
  | [] => true
  | [_] => true
  | a :: b :: r => lexLe (strBytes a.name) (strBytes b.name) && isSortedByName (b :: r)

/-- A fetch response that is a transport error (HTTP 500, err non-nil). -/
def errResp1 : DetailsResp := ⟨⟨1, "", ""⟩, some 500, true⟩

/-- A successful fetch response for account 2. -/
def okResp2 : DetailsResp := ⟨⟨2, "B", "b@x"⟩, some 200, false⟩

def okExt : ExtIDsResp := ⟨[], false⟩

/-- The store invariant of a content-addressed object database: every
stored object sits under the hash of its own canonical encoding. -/
def ContentAddressed (st : Store) : Prop :=
  ∀ p ∈ st.objects, p.1 = encodeObj p.2

instance (st : Store) : Decidable (ContentAddressed st) := by
  unfold ContentAddressed; infer_instance

/-- A failure oracle that rejects exactly the account-config blob of
account 7: the first object write of the run fails. -/
def failBlobA : String → Bool := fun k => k == encodeObj acctBlobA

/-- A prepared store holding account 7's commit and reference (and no
ledger reference): the state a previous sync left behind. -/
def stW : Store :=
  ⟨[(encodeObj acctCommitA, acctCommitA)], [(uidRefName 7, encodeObj acctCommitA)]⟩

/-- Account 7 with a changed email (scenario C). -/
def infC : AccountInfo := ⟨⟨7, "A", "c@x"⟩, []⟩

/-- A fresh account (no existing reference) owning two identities. -/
def inf9 : AccountInfo := ⟨⟨9, "C", "c@x"⟩, [⟨"b", ""⟩, ⟨"a", ""⟩]⟩

/-! ### Helper lemmas -/

theorem lookupA_setAssoc_self {β : Type} (l : List (String × β)) (k : String) (v : β) :
    lookupA (setAssoc l k v) k = some v := by
  induction l with
  | nil => simp [setAssoc, lookupA]
  | cons p rest ih =>
      obtain ⟨k0, v0⟩ := p
      by_cases h : k0 = k
      · simp [setAssoc, h, lookupA]
      · simp [setAssoc, h, lookupA, ih]

theorem lookupA_setAssoc_ne {β : Type} (l : List (String × β)) (k k2 : String) (v : β)
    (h : k ≠ k2) : lookupA (setAssoc l k v) k2 = lookupA l k2 := by
  induction l with
  | nil => simp [setAssoc, lookupA, h]
  | cons p rest ih =>
      obtain ⟨k0, v0⟩ := p
      by_cases h0 : k0 = k
      · subst h0
        simp [setAssoc, lookupA, h]
      · simp [setAssoc, h0, lookupA, ih]

theorem mem_setAssoc {β : Type} (l : List (String × β)) (k : String) (v : β) (p : String × β)
    (h : p ∈ setAssoc l k v) : p ∈ l ∨ p = (k, v) := by
  induction l with
  | nil => simp [setAssoc] at h; simp [h]
  | cons q rest ih =>
      obtain ⟨k0, v0⟩ := q
      by_cases h0 : k0 = k
      · simp [setAssoc, h0] at h
        rcases h with h | h
        · right; simp [h]
        · left; simp [h]
      · simp [setAssoc, h0] at h
        rcases h with h | h
        · left; simp [h]
        · rcases ih h with h1 | h1
          · left; simp [h1]
          · right; exact h1

theorem lookupA_mem {β : Type} (l : List (String × β)) (k : String) (v : β)
    (h : lookupA l k = some v) : (k, v) ∈ l := by
  induction l with
  | nil => simp [lookupA] at h
  | cons q rest ih =>
      obtain ⟨k0, v0⟩ := q
      by_cases h0 : k0 = k
      · subst h0
        simp [lookupA] at h
        simp [h]
      · simp [lookupA, h0] at h
        exact List.mem_cons_of_mem _ (ih h)

theorem lookupA_setAssoc_split {β : Type} (l : List (String × β)) (k k2 : String) (v : β) :
    lookupA (setAssoc l k v) k2 = if k = k2 then some v else lookupA l k2 := by
  by_cases h : k = k2
  · subst h; simp [lookupA_setAssoc_self]
  · simp [h, lookupA_setAssoc_ne l k k2 v h]

theorem lexLe_total (xs ys : List Nat) : lexLe xs ys = true ∨ lexLe ys xs = true := by
  induction xs generalizing ys with
  | nil => left; simp [lexLe]
  | cons a as ih =>
      cases ys with
      | nil => right; simp [lexLe]
      | cons b bs =>
          rcases Nat.lt_trichotomy a b with h | h | h
          · left; simp [lexLe, h]
          · subst h
            rcases ih bs with h2 | h2
            · left; simp [lexLe, h2]
            · right; simp [lexLe, h2]
          · right; simp [lexLe, h, Nat.not_lt.mpr (Nat.le_of_lt h)]

theorem lexLe_trans (xs ys zs : List Nat) (h1 : lexLe xs ys = true)
    (h2 : lexLe ys zs = true) : lexLe xs zs = true := by
  induction xs generalizing ys zs with
  | nil => simp [lexLe]
  | cons a as ih =>
      cases ys with
      | nil => simp [lexLe] at h1
      | cons b bs =>
          cases zs with
          | nil => simp [lexLe] at h2
          | cons c cs =>
              simp only [lexLe] at h1 h2 ⊢
              by_cases hab : a < b
              · by_cases hbc : b < c
                · simp [Nat.lt_trans hab hbc]
                · by_cases hcb : c < b
                  · simp [hbc, hcb] at h2
                  · have heq : b = c := Nat.le_antisymm (Nat.not_lt.mp hcb) (Nat.not_lt.mp hbc)
                    subst heq
                    simp [hab]
              · by_cases hba : b < a
                · simp [hab, hba] at h1
                · have heq : a = b := Nat.le_antisymm (Nat.not_lt.mp hba) (Nat.not_lt.mp hab)
                  subst heq
                  simp [hab] at h1
                  by_cases hac : a < c
                  · simp [hac]
                  · by_cases hca : c < a
                    · simp [hac, hca] at h2
                    · simp [hac, hca] at h2 ⊢
                      exact ih bs cs h1 h2

/-! ### Claim C1 -/

set_option maxRecDepth 100000 in
/-- C1, counterexample.  The claim says a run over an empty repository
with one account and no external ids produces no ledger commit and sets
only the account's reference.  On the code, scenario A stores a ledger
commit (over the empty tree) and sets the ledger reference
`refs/meta/external-ids` as well: `SaveCommit` for the ledger runs
unconditionally, and the reference is staged whenever there was no
previous ledger commit. -/
theorem C1_counterexample :
    lookupA runA.1.refs extRefName = some (encodeObj ledgerCommitA) ∧
      lookupA runA.1.objects (encodeObj ledgerCommitA) = some ledgerCommitA := by
  decide

set_option maxRecDepth 100000 in
/-- C1, amended.  A ledger commit object is built and saved on every
successful run, whether or not the patched tree differs; only the ledger
reference update is conditional (staged when there is no previous ledger
commit or the tree changed).  Scenario A produces exactly: the account
config blob, the account tree, one account commit, the empty ledger
tree, and one ledger commit; it sets both the account reference
`refs/users/07/7` and the ledger reference. -/
theorem C1_ledger_commit_always_built :
    runA =
      (⟨[(encodeObj acctBlobA, acctBlobA), (encodeObj acctTreeA, acctTreeA),
         (encodeObj acctCommitA, acctCommitA), (encodeObj ledgerTreeA, ledgerTreeA),
         (encodeObj ledgerCommitA, ledgerCommitA)],
        [(uidRefName 7, encodeObj acctCommitA), (extRefName, encodeObj ledgerCommitA)]⟩,
       none) := by
  decide

/-! ### Claim C2 -/

set_option maxRecDepth 100000 in
/-- C2, counterexample.  Re-running the pipeline with input records
identical to the first run does NOT produce zero new objects: the second
run (here one second later) stores one additional object. -/
theorem C2_counterexample :
    (runB 1).1.objects.length = runA.1.objects.length + 1 := by
  decide

set_option maxRecDepth 100000 in
/-- C2, amended.  The second identical run changes zero references, and
the per-account path is idempotent (the account is skipped), but the run
unconditionally saves a ledger commit, which is a new object: it is
chained to the first run's ledger commit as parent (and carries the new
timestamp), so the second run creates exactly one new, unreferenced
object even when the timestamp is unchanged.  A third identical run with
the same timestamp as the second rebuilds the identical ledger commit
and thus changes nothing at all. -/
theorem C2_second_run_one_garbage_commit :
    ((runB 1).2 = none ∧ (runB 1).1.refs = runA.1.refs ∧
      (runB 1).1.objects = runA.1.objects ++ [(encodeObj (ledgerCommitB 1), ledgerCommitB 1)]) ∧
    ((runB 0).1.refs = runA.1.refs ∧
      (runB 0).1.objects = runA.1.objects ++ [(encodeObj (ledgerCommitB 0), ledgerCommitB 0)]) ∧
    saveAccountDetails nofail nofail nofail 0 (runB 0).1 [infA] = ((runB 0).1, none) := by
  decide

/-! ### Claim C3 -/

/-- C3.  The spec (and the dead `log.Fatal(err)` in the collection loop)
intend a transport/auth fetch error to abort the whole run, unlike a 404
which only skips the id.  The code checks `if val == nil { continue }`
before `if err != nil { log.Fatal(err) }`, and `getAccountDetails`
returns `val == nil` whenever `err != nil`, so a transport error is
silently skipped exactly like a 404 and the fatal branch is unreachable:
with a transport error for the first id, the run continues and collects
the remaining account. -/
theorem C3_transport_error_skipped_not_fatal :
    getAccountDetails errResp1 okExt = (none, true) ∧
      collectInfos [(errResp1, okExt), (okResp2, okExt)] [] =
        .collected [⟨⟨2, "B", "b@x"⟩, []⟩] := by
  decide

/-! ### Claim C5 -/

set_option maxRecDepth 100000 in
/-- C5, counterexample.  The claim says the orchestrator always passes
the tree patcher a batch sorted by the canonical byte order of entry
names.  For an account owning identities "b" then "a", the batch handed
to the patcher has names `sha1("b") = e9d7... > sha1("a") = 86f7...` in
that order: it is not sorted. -/
theorem C5_counterexample : isSortedByName batchBA = false := by
  decide

set_option maxRecDepth 100000 in
/-- C5, amended.  The orchestrator performs no sorting of the update
batch: the entries are passed to the tree patcher in accumulation
(input) order — here exactly one entry per identity, in the identities'
input order, so the spec's sortedness precondition is not established by
the caller (the saved tree still ends up sorted only because the
tree-saving routine itself sorts). -/
theorem C5_batch_passed_in_input_order :
    batchBA = [extIdEntry 7 ⟨"b", ""⟩, extIdEntry 7 ⟨"a", ""⟩] := by
  decide

/-! ### Claim C6 -/

set_option maxRecDepth 100000 in
/-- C6, counterexample.  The claim says every account processed in a run
contributes one ledger tree entry per external identity it owns.  When
account 7 (already stored by the first run with an unchanged account
config) is re-synced now owning one external identity, the unchanged-tree
check `continue`s before the external-id loop, so the run completes with
an empty ledger batch: the identity contributes no entry at all. -/
theorem C6_counterexample :
    batch7a = [] ∧ inf7a.extIDs = [⟨"a", "e@x"⟩] ∧
      (batchPhase nofail (newSig 1) ⟨runA.1, [], []⟩ [inf7a]).2 = none := by
  decide

/-! ### Claim C7 -/

/-- C7.  Applying a reference transaction whose underlying set operation
fails partway through (`failSet` rejects `name`, the set operations of
the prefix succeed) leaves exactly the prefix's updates applied, leaves
the remaining updates un-applied, and returns the error. -/
theorem C7_partial_failure_keeps_prefix (failSet failRemove : String → Bool)
    (refs : List (String × String)) (pre post : List (String × Option RefUpdate))
    (name : String) (u : RefUpdate)
    (hpre : (UpdateRepo failSet failRemove refs pre).2 = none)
    (hfail : failSet name = true) :
    UpdateRepo failSet failRemove refs (pre ++ (name, some u) :: post) =
      ((UpdateRepo failSet failRemove refs pre).1, some ()) := by
  induction pre generalizing refs with
  | nil => simp [UpdateRepo, hfail]
  | cons p rest ih =>
      obtain ⟨n0, u0⟩ := p
      cases u0 with
      | none =>
          simp only [List.cons_append, UpdateRepo] at hpre ⊢
          exact ih _ hpre
      | some v =>
          simp only [List.cons_append, UpdateRepo] at hpre ⊢
          by_cases h0 : failSet n0 = true
          · simp [h0] at hpre
          · simp [h0] at hpre ⊢
            exact ih _ hpre

/-- C7, witness: a concrete three-update transaction whose second set
fails applies exactly the first update and reports the error. -/
theorem C7_partial_failure_keeps_prefix_witness :
    UpdateRepo (fun n => n == "r2") nofail []
        ([("r1", some ⟨"h1"⟩)] ++ ("r2", some (⟨"h2"⟩ : RefUpdate)) :: [("r3", some ⟨"h3"⟩)]) =
      ([("r1", "h1")], some ()) := by
  have h := C7_partial_failure_keeps_prefix (fun n => n == "r2") nofail []
    [("r1", some ⟨"h1"⟩)] [("r3", some ⟨"h3"⟩)] "r2" ⟨"h2"⟩ (by decide) (by decide)
  exact h.trans (by decide)

/-! ### Claim C9 -/

/-- C9.  Every tree persisted through the tree-saving operation has its
entries sorted by the canonical byte order of names before encoding and
hashing, regardless of the order in which the caller supplies them: the
saved entry list is a sorted permutation of the input, and the returned
hash is the hash of the sorted encoding. -/
theorem C9_savetree_sorts_before_hashing (st : Store) (es : List TreeEntry) :
    List.Sorted entryLe (SortTreeEntries es) ∧ (SortTreeEntries es).Perm es ∧
      SaveTree nofail st es =
        (addObject st (.tree (SortTreeEntries es)),
         .ok (encodeObj (.tree (SortTreeEntries es)))) := by
  refine ⟨?_, ?_, ?_⟩
  · haveI : IsTotal TreeEntry entryLe := ⟨fun a b => lexLe_total _ _⟩
    haveI : IsTrans TreeEntry entryLe := ⟨fun a b c h1 h2 => lexLe_trans _ _ _ h1 h2⟩
    exact List.sorted_insertionSort entryLe es
  · exact List.perm_insertionSort entryLe es
  · rfl

/-! ### Claim C10 -/

/-- C10.  A deletion entry (a nil update) calls `RemoveReference` and
discards its result, so `UpdateRepo` never returns an error caused by a
removal: a transaction containing only deletions reports success for
every failure oracle. -/
theorem C10_deletion_only_always_succeeds (failSet failRemove : String → Bool)
    (refs : List (String × String)) (names : List String) :
    (UpdateRepo failSet failRemove refs (names.map (fun n => (n, none)))).2 = none := by
  induction names generalizing refs with
  | nil => simp [UpdateRepo]
  | cons n rest ih =>
      simp only [List.map_cons, UpdateRepo]
      exact ih _

theorem strData_append (a b : String) : (a ++ b).data = a.data ++ b.data := by
  cases a with
  | mk la =>
      cases b with
      | mk lb => rfl

theorem head_blob (d : String) : (encodeObj (.blob d)).data.head? = some 'b' := rfl

theorem head_tree (es : List TreeEntry) : (encodeObj (.tree es)).data.head? = some 't' := rfl

theorem head_commit (c : CommitObj) : (encodeObj (.commit c)).data.head? = some 'c' := rfl

theorem blob_key_ne_commit_key (d : String) (c : CommitObj) :
    encodeObj (.blob d) ≠ encodeObj (.commit c) := by
  intro h
  have e1 := head_blob d
  rw [h, head_commit] at e1
  simp at e1

theorem tree_key_ne_commit_key (es : List TreeEntry) (c : CommitObj) :
    encodeObj (.tree es) ≠ encodeObj (.commit c) := by
  intro h
  have e1 := head_tree es
  rw [h, head_commit] at e1
  simp at e1

theorem commit_idx14_account (c : CommitObj) (h : c.message = "update account") :
    (encodeObj (.commit c)).data[14]? = some 'a' := by
  obtain ⟨a, co, m, t, p⟩ := c
  simp only at h
  subst h
  rfl

theorem commit_idx14_ledger (c : CommitObj) (h : c.message = "update external IDs") :
    (encodeObj (.commit c)).data[14]? = some 'e' := by
  obtain ⟨a, co, m, t, p⟩ := c
  simp only at h
  subst h
  rfl

theorem ledger_key_ne_account_key (c1 c2 : CommitObj) (h1 : c1.message = "update external IDs")
    (h2 : c2.message = "update account") : encodeObj (.commit c1) ≠ encodeObj (.commit c2) := by
  intro h
  have e1 := commit_idx14_ledger c1 h1
  have e2 := commit_idx14_account c2 h2
  rw [h] at e1
  rw [e1] at e2
  simp at e2

theorem uid_ne_ext (aid : Nat) : uidRefName aid ≠ extRefName := by
  intro h
  have l : (uidRefName aid).data[5]? = some 'u' := rfl
  have r : extRefName.data[5]? = some 'm' := rfl
  rw [h, r] at l
  simp at l

theorem setEncodedObject_refs (fail : String → Bool) (st : Store) (o : GitObj) :
    ((setEncodedObject fail st o).1).refs = st.refs := by
  unfold setEncodedObject addObject
  split <;> rfl

theorem SaveConfig_refs (fail : String → Bool) (st : Store) (cfg : Config) :
    ((SaveConfig fail st cfg).1).refs = st.refs :=
  setEncodedObject_refs fail st _

theorem SaveTree_refs (fail : String → Bool) (st : Store) (es : List TreeEntry) :
    ((SaveTree fail st es).1).refs = st.refs :=
  setEncodedObject_refs fail st _

theorem SaveCommit_refs (fail : String → Bool) (st : Store) (c : CommitObj) :
    ((SaveCommit fail st c).1).refs = st.refs :=
  setEncodedObject_refs fail st _

theorem PatchTree_refs (fail : String → Bool) (st : Store) (base us : List TreeEntry) :
    ((PatchTree fail st base us).1).refs = st.refs :=
  setEncodedObject_refs fail st _

theorem extIDsPhase_refs (fail : String → Bool) (aid : Nat) :
    ∀ (es : List AccountExternalIdInfo) (st : Store) (ne : List TreeEntry),
      ((extIDsPhase fail aid (st, ne) es).1.1).refs = st.refs := by
  intro es
  induction es with
  | nil => intro st ne; rfl
  | cons e rest ih =>
      intro st ne
      simp only [extIDsPhase]
      split
      · next st2 heq =>
          have h2 := SaveConfig_refs fail st (extIdConfig aid e)
          rw [heq] at h2
          simpa using h2
      · next st2 bid heq =>
          have h2 := SaveConfig_refs fail st (extIdConfig aid e)
          rw [heq] at h2
          simp at h2
          rw [ih st2 _]
          exact h2

theorem processAccount_refs (fail : String → Bool) (s : Sig) (bs : BatchState)
    (inf : AccountInfo) : ((processAccount fail s bs inf).1).st.refs = bs.st.refs := by
  unfold processAccount
  split
  · next st1 heq =>
      have h1 := SaveConfig_refs fail bs.st (accountConfig inf.account)
      rw [heq] at h1
      simpa using h1
  · next st1 blobId heq =>
      have h1 := SaveConfig_refs fail bs.st (accountConfig inf.account)
      rw [heq] at h1
      simp at h1
      split
      · next st2 heq2 =>
          have h2 := SaveTree_refs fail st1 [⟨"account.config", regular, blobId⟩]
          rw [heq2] at h2
          simp at h2
          simpa [h2] using h1
      · next st2 treeId heq2 =>
          have h2 := SaveTree_refs fail st1 [⟨"account.config", regular, blobId⟩]
          rw [heq2] at h2
          simp at h2
          have h12 : st2.refs = bs.st.refs := h2.trans h1
          split
          · next oldHash heqr =>
              split
              · next oldC heqo =>
                  split
                  · simpa using h12
                  · split
                    · next st3 heq3 =>
                        have h3 := SaveCommit_refs fail st2 ⟨s, s, "update account", treeId, [oldHash]⟩
                        rw [heq3] at h3
                        simp at h3
                        simpa [h3] using h12
                    · next st3 cid heq3 =>
                        have h3 := SaveCommit_refs fail st2 ⟨s, s, "update account", treeId, [oldHash]⟩
                        rw [heq3] at h3
                        simp at h3
                        split
                        · next st4 ne2 err heq4 =>
                            have h4 := extIDsPhase_refs fail inf.account.accountID inf.extIDs st3 bs.newEntries
                            rw [heq4] at h4
                            simp at h4
                            simp [h4, h3, h12]
              · next heqo => simpa using h12
          · next heqr =>
              split
              · next st3 heq3 =>
                  have h3 := SaveCommit_refs fail st2 ⟨s, s, "update account", treeId, []⟩
                  rw [heq3] at h3
                  simp at h3
                  simpa [h3] using h12
              · next st3 cid heq3 =>
                  have h3 := SaveCommit_refs fail st2 ⟨s, s, "update account", treeId, []⟩
                  rw [heq3] at h3
                  simp at h3
                  split
                  · next st4 ne2 err heq4 =>
                      have h4 := extIDsPhase_refs fail inf.account.accountID inf.extIDs st3 bs.newEntries
                      rw [heq4] at h4
                      simp at h4
                      simp [h4, h3, h12]

theorem batchPhase_refs (fail : String → Bool) (s : Sig) :
    ∀ (infos : List AccountInfo) (bs : BatchState),
      ((batchPhase fail s bs infos).1).st.refs = bs.st.refs := by
  intro infos
  induction infos with
  | nil => intro bs; rfl
  | cons inf rest ih =>
      intro bs
      simp only [batchPhase]
      split
      · next bs2 heq =>
          have h1 := processAccount_refs fail s bs inf
          rw [heq] at h1
          simp at h1
          rw [ih bs2]
          exact h1
      · next bs2 e heq =>
          have h1 := processAccount_refs fail s bs inf
          rw [heq] at h1
          simpa using h1

theorem UpdateRepo_nofailSet (failRemove : String → Bool) :
    ∀ (us : List (String × Option RefUpdate)) (refs : List (String × String)),
      (UpdateRepo nofail failRemove refs us).2 = none := by
  intro us
  induction us with
  | nil => intro refs; rfl
  | cons p rest ih =>
      intro refs
      obtain ⟨n, u⟩ := p
      cases u with
      | none => simp only [UpdateRepo]; exact ih _
      | some v => simp only [UpdateRepo, nofail]; exact ih _

theorem extIDsPhase_nofail_ok (aid : Nat) :
    ∀ (es : List AccountExternalIdInfo) (st : Store) (ne : List TreeEntry),
      (extIDsPhase nofail aid (st, ne) es).2 = none ∧
        (extIDsPhase nofail aid (st, ne) es).1.2 = ne ++ es.map (extIdEntry aid) := by
  intro es
  induction es with
  | nil => intro st ne; simp [extIDsPhase]
  | cons e rest ih =>
      intro st ne
      simp only [extIDsPhase, SaveConfig, SaveBlob, setEncodedObject, nofail,
        Bool.false_eq_true, if_false, List.map_cons]
      have h := ih (addObject st (.blob (encodeConfig (extIdConfig aid e))))
        (ne ++ [⟨sha1Hex e.identity, regular, encodeObj (.blob (encodeConfig (extIdConfig aid e)))⟩])
      refine ⟨h.1, ?_⟩
      rw [h.2]
      simp [extIdEntry]

theorem extIDsPhase_lookup_commit (aid : Nat) (c : CommitObj) :
    ∀ (es : List AccountExternalIdInfo) (st : Store) (ne : List TreeEntry),
      lookupA ((extIDsPhase nofail aid (st, ne) es).1.1).objects (encodeObj (.commit c)) =
        lookupA st.objects (encodeObj (.commit c)) := by
  intro es
  induction es with
  | nil => intro st ne; rfl
  | cons e rest ih =>
      intro st ne
      simp only [extIDsPhase, SaveConfig, SaveBlob, setEncodedObject, nofail,
        Bool.false_eq_true, if_false]
      rw [ih]
      exact lookupA_setAssoc_ne st.objects _ _ _
        (blob_key_ne_commit_key (encodeConfig (extIdConfig aid e)) c)

/-! ### Claim C6, amended theorem -/

/-- C6, amended.  For every account that is NOT skipped by the
unchanged-tree check (here: an account with no existing reference), the
run derives exactly one ledger tree entry per external identity the
account owns — named by the SHA-1 hex of the identity key and pointing
at the config blob encoding the owning account id and optional email
(`extIdEntry`) — appending them to the ledger batch in input order; an
account whose derived tree equals its existing commit's tree is skipped
before the external-id loop and contributes nothing. -/
theorem C6_entries_per_identity_unless_skipped (s : Sig) (bs : BatchState) (inf : AccountInfo)
    (hca : ContentAddressed bs.st) :
    (lookupA bs.st.refs (uidRefName inf.account.accountID) = none →
      (processAccount nofail s bs inf).2 = none ∧
      (processAccount nofail s bs inf).1.newEntries =
        bs.newEntries ++ inf.extIDs.map (extIdEntry inf.account.accountID)) ∧
    (∀ h oc, lookupA bs.st.refs (uidRefName inf.account.accountID) = some h →
      lookupA bs.st.objects h = some (.commit oc) →
      oc.treeHash = accountTreeHash inf.account →
      (processAccount nofail s bs inf).2 = none ∧
      (processAccount nofail s bs inf).1.newEntries = bs.newEntries) := by
  constructor
  · intro hnone
    simp only [processAccount, SaveConfig, SaveBlob, SaveTree, SaveCommit, setEncodedObject,
      nofail, Bool.false_eq_true, if_false, SortTreeEntries, List.insertionSort,
      List.orderedInsert, addObject]
    rw [hnone]
    dsimp only
    exact extIDsPhase_nofail_ok _ _ _ _
  · intro h oc href hobj htree
    have hk : h = encodeObj (.commit oc) := hca _ (lookupA_mem _ _ _ hobj)
    simp only [accountTreeHash] at htree
    simp only [processAccount, SaveConfig, SaveBlob, SaveTree, SaveCommit, setEncodedObject,
      nofail, Bool.false_eq_true, if_false, SortTreeEntries, List.insertionSort,
      List.orderedInsert, addObject]
    rw [href]
    dsimp only
    rw [lookupA_setAssoc_ne _ _ _ _ (by rw [hk]; exact tree_key_ne_commit_key _ oc),
      lookupA_setAssoc_ne _ _ _ _ (by rw [hk]; exact blob_key_ne_commit_key _ oc), hobj]
    dsimp only
    rw [if_pos htree]
    exact ⟨rfl, rfl⟩

set_option maxRecDepth 100000 in
/-- C6, witness: account 9 (fresh, two identities) contributes one entry
per identity in input order; account 7 against a store already holding
its unchanged commit is skipped and contributes none. -/
theorem C6_entries_per_identity_unless_skipped_witness :
    ((processAccount nofail (newSig 0) ⟨⟨[], []⟩, [], []⟩ inf9).1.newEntries =
        [extIdEntry 9 ⟨"b", ""⟩, extIdEntry 9 ⟨"a", ""⟩]) ∧
    ((processAccount nofail (newSig 1) ⟨stW, [], []⟩ inf7a).2 = none ∧
      (processAccount nofail (newSig 1) ⟨stW, [], []⟩ inf7a).1.newEntries = []) := by
  refine ⟨?_, ?_⟩
  · have h := (C6_entries_per_identity_unless_skipped (newSig 0) ⟨⟨[], []⟩, [], []⟩ inf9
      (by decide)).1 (by decide)
    exact h.2.trans (by decide)
  · exact (C6_entries_per_identity_unless_skipped (newSig 1) ⟨stW, [], []⟩ inf7a
      (by decide)).2 (encodeObj acctCommitA)
      ⟨newSig 0, newSig 0, "update account", encodeObj acctTreeA, []⟩
      (by decide) (by decide) (by decide)

/-! ### Claim C8 -/

/-- C8.  If a run of `saveAccountDetails` returns an error while the
reference-store set operation cannot itself fail (so the error comes
from an object write: a blob, tree, or commit save), the function
returned before the reference transaction was applied and the reference
store is exactly the input one: no reference was created, updated or
removed for any record of the run. -/
theorem C8_object_store_error_leaves_refs (fail failRemove : String → Bool) (now : Nat)
    (st : Store) (infos : List AccountInfo)
    (h : (saveAccountDetails fail nofail failRemove now st infos).2 = some ()) :
    (saveAccountDetails fail nofail failRemove now st infos).1.refs = st.refs := by
  unfold saveAccountDetails at h ⊢
  revert h
  dsimp only
  split
  · intro _; rfl
  · next extCommit heqE =>
      split
      · next bs heqB =>
          intro _
          have hr := batchPhase_refs fail (newSig now) infos ⟨st, [], []⟩
          rw [heqB] at hr
          simpa using hr
      · next bs heqB =>
          have hrB : bs.st.refs = st.refs := by
            have hr := batchPhase_refs fail (newSig now) infos ⟨st, [], []⟩
            rw [heqB] at hr
            simpa using hr
          split
          · intro _; exact hrB
          · next prevEntries heqP =>
              split
              · next st5 heq5 =>
                  intro _
                  have hr := PatchTree_refs fail bs.st prevEntries bs.newEntries
                  rw [heq5] at hr
                  simp at hr
                  exact hr.trans hrB
              · next st5 treeId heq5 =>
                  have hr5 : st5.refs = st.refs := by
                    have hr := PatchTree_refs fail bs.st prevEntries bs.newEntries
                    rw [heq5] at hr
                    simp at hr
                    exact hr.trans hrB
                  split
                  · next stE e heq6 =>
                      intro _
                      have hr := congrArg (fun p => (p.1).refs) heq6
                      simp only [SaveCommit_refs] at hr
                      exact hr.symm.trans hr5
                  · next st6 cid heq6 =>
                      dsimp only
                      intro h
                      rw [UpdateRepo_nofailSet] at h
                      cases h

set_option maxRecDepth 100000 in
/-- C8, witness: failing the very first object write (account 7's config
blob) aborts the run with the reference store untouched. -/
theorem C8_object_store_error_leaves_refs_witness :
    (saveAccountDetails failBlobA nofail nofail 0 ⟨[], []⟩ [infA]).2 = some () ∧
      (saveAccountDetails failBlobA nofail nofail 0 ⟨[], []⟩ [infA]).1.refs = [] := by
  refine ⟨by decide, ?_⟩
  exact C8_object_store_error_leaves_refs failBlobA nofail 0 ⟨[], []⟩ [infA] (by decide)

/-! ### Claim C4 -/

/-- C4.  For a run over one account (with no ledger reference present,
and a content-addressed store): if the account's reference exists and
points at a commit whose tree hash equals the newly derived tree hash,
the run succeeds, leaves the reference value untouched, and creates no
new account commit (every object in the final store is either an old one
or not an "update account" commit); if the tree hash differs, the run
creates a new commit whose sole parent is the old commit hash and points
the reference at the new commit's hash; if no reference exists, the new
commit has no parents and the reference is set to it. -/
theorem C4_commit_skip_and_chain (now : Nat) (st : Store) (inf : AccountInfo)
    (hca : ContentAddressed st)
    (hext : lookupA st.refs extRefName = none) :
    (∀ h oc, lookupA st.refs (uidRefName inf.account.accountID) = some h →
      lookupA st.objects h = some (.commit oc) →
      ((oc.treeHash = accountTreeHash inf.account →
        (saveAccountDetails nofail nofail nofail now st [inf]).2 = none ∧
        lookupA (saveAccountDetails nofail nofail nofail now st [inf]).1.refs
            (uidRefName inf.account.accountID) = some h ∧
        (∀ p ∈ (saveAccountDetails nofail nofail nofail now st [inf]).1.objects,
          p ∈ st.objects ∨
            ∀ c : CommitObj, p.2 = GitObj.commit c → c.message ≠ "update account")) ∧
       (oc.treeHash ≠ accountTreeHash inf.account →
        (saveAccountDetails nofail nofail nofail now st [inf]).2 = none ∧
        lookupA (saveAccountDetails nofail nofail nofail now st [inf]).1.objects
            (encodeObj (GitObj.commit ⟨newSig now, newSig now, "update account",
              accountTreeHash inf.account, [h]⟩)) =
          some (GitObj.commit ⟨newSig now, newSig now, "update account",
            accountTreeHash inf.account, [h]⟩) ∧
        lookupA (saveAccountDetails nofail nofail nofail now st [inf]).1.refs
            (uidRefName inf.account.accountID) =
          some (encodeObj (GitObj.commit ⟨newSig now, newSig now, "update account",
            accountTreeHash inf.account, [h]⟩))))) ∧
    (lookupA st.refs (uidRefName inf.account.accountID) = none →
      (saveAccountDetails nofail nofail nofail now st [inf]).2 = none ∧
      lookupA (saveAccountDetails nofail nofail nofail now st [inf]).1.objects
          (encodeObj (GitObj.commit ⟨newSig now, newSig now, "update account",
            accountTreeHash inf.account, []⟩)) =
        some (GitObj.commit ⟨newSig now, newSig now, "update account",
          accountTreeHash inf.account, []⟩) ∧
      lookupA (saveAccountDetails nofail nofail nofail now st [inf]).1.refs
          (uidRefName inf.account.accountID) =
        some (encodeObj (GitObj.commit ⟨newSig now, newSig now, "update account",
          accountTreeHash inf.account, []⟩))) := by
  refine ⟨fun h oc href hobj => ⟨fun htree => ?_, fun htree => ?_⟩, fun hnone => ?_⟩
  · have hk : h = encodeObj (.commit oc) := hca _ (lookupA_mem _ _ _ hobj)
    simp only [accountTreeHash] at htree
    simp only [saveAccountDetails, batchPhase, processAccount, SaveConfig, SaveBlob, SaveTree,
      SaveCommit, PatchTree, setEncodedObject, nofail, Bool.false_eq_true, if_false,
      SortTreeEntries, List.insertionSort, List.orderedInsert, addObject, accountTreeHash,
      mergeEntries, mergeGo]
    rw [hext]
    dsimp only
    rw [href]
    dsimp only
    rw [lookupA_setAssoc_ne _ _ _ _ (by rw [hk]; exact tree_key_ne_commit_key _ oc),
      lookupA_setAssoc_ne _ _ _ _ (by rw [hk]; exact blob_key_ne_commit_key _ oc), hobj]
    dsimp only
    rw [if_pos htree]
    simp only [setAssoc, UpdateRepo, nofail, Bool.false_eq_true, if_false]
    refine ⟨by trivial, ?_, ?_⟩
    · dsimp only
      rw [lookupA_setAssoc_ne _ _ _ _ (Ne.symm (uid_ne_ext inf.account.accountID))]
      exact href
    · dsimp only
      intro p hp
      rcases mem_setAssoc _ _ _ _ hp with hp1 | rfl
      · rcases mem_setAssoc _ _ _ _ hp1 with hp2 | rfl
        · rcases mem_setAssoc _ _ _ _ hp2 with hp3 | rfl
          · rcases mem_setAssoc _ _ _ _ hp3 with hp4 | rfl
            · exact Or.inl hp4
            · right
              intro c hc
              simp at hc
          · right
            intro c hc
            simp at hc
        · right
          intro c hc
          simp at hc
      · right
        intro c hc
        have hrec := hc
        simp only [GitObj.commit.injEq] at hrec
        subst hrec
        simp
  · have hk : h = encodeObj (.commit oc) := hca _ (lookupA_mem _ _ _ hobj)
    simp only [accountTreeHash] at htree
    simp only [saveAccountDetails, batchPhase, processAccount, SaveConfig, SaveBlob, SaveTree,
      SaveCommit, PatchTree, setEncodedObject, nofail, Bool.false_eq_true, if_false,
      SortTreeEntries, List.insertionSort, List.orderedInsert, addObject, accountTreeHash]
    rw [hext]
    dsimp only
    rw [href]
    dsimp only
    rw [lookupA_setAssoc_ne _ _ _ _ (by rw [hk]; exact tree_key_ne_commit_key _ oc),
      lookupA_setAssoc_ne _ _ _ _ (by rw [hk]; exact blob_key_ne_commit_key _ oc), hobj]
    dsimp only
    rw [if_neg htree]
    try dsimp only
    rw [(extIDsPhase_nofail_ok _ _ _ _).1]
    dsimp only
    simp only [setAssoc]
    rw [if_neg (uid_ne_ext inf.account.accountID)]
    simp only [UpdateRepo, nofail, Bool.false_eq_true, if_false]
    refine ⟨by trivial, ?_, ?_⟩
    · dsimp only
      rw [lookupA_setAssoc_ne _ _ _ _ (ledger_key_ne_account_key _ _ rfl rfl)]
      rw [lookupA_setAssoc_ne _ _ _ _ (tree_key_ne_commit_key _ _)]
      rw [extIDsPhase_lookup_commit]
      dsimp only
      exact lookupA_setAssoc_self _ _ _
    · dsimp only
      rw [lookupA_setAssoc_ne _ _ _ _ (Ne.symm (uid_ne_ext inf.account.accountID))]
      exact lookupA_setAssoc_self _ _ _
  · simp only [saveAccountDetails, batchPhase, processAccount, SaveConfig, SaveBlob, SaveTree,
      SaveCommit, PatchTree, setEncodedObject, nofail, Bool.false_eq_true, if_false,
      SortTreeEntries, List.insertionSort, List.orderedInsert, addObject, accountTreeHash]
    rw [hext]
    dsimp only
    rw [hnone]
    dsimp only
    rw [(extIDsPhase_nofail_ok _ _ _ _).1]
    dsimp only
    simp only [setAssoc]
    rw [if_neg (uid_ne_ext inf.account.accountID)]
    simp only [UpdateRepo, nofail, Bool.false_eq_true, if_false]
    refine ⟨by trivial, ?_, ?_⟩
    · dsimp only
      rw [lookupA_setAssoc_ne _ _ _ _ (ledger_key_ne_account_key _ _ rfl rfl)]
      rw [lookupA_setAssoc_ne _ _ _ _ (tree_key_ne_commit_key _ _)]
      rw [extIDsPhase_lookup_commit]
      dsimp only
      exact lookupA_setAssoc_self _ _ _
    · dsimp only
      rw [lookupA_setAssoc_ne _ _ _ _ (Ne.symm (uid_ne_ext inf.account.accountID))]
      exact lookupA_setAssoc_self _ _ _

set_option maxRecDepth 100000 in
/-- C4, witness: against a store holding account 7's commit (and no
ledger reference), a re-sync of an unchanged account 7 succeeds and
leaves its reference value untouched; a changed email yields a new
commit with the old commit as sole parent and the reference moved to it;
a fresh account 9 gets a parentless commit and a new reference. -/
theorem C4_commit_skip_and_chain_witness :
    ((saveAccountDetails nofail nofail nofail 5 stW [infA]).2 = none ∧
      lookupA (saveAccountDetails nofail nofail nofail 5 stW [infA]).1.refs (uidRefName 7) =
        some (encodeObj acctCommitA)) ∧
    (lookupA (saveAccountDetails nofail nofail nofail 5 stW [infC]).1.refs (uidRefName 7) =
      some (encodeObj (GitObj.commit ⟨newSig 5, newSig 5, "update account",
        accountTreeHash ⟨7, "A", "c@x"⟩, [encodeObj acctCommitA]⟩))) ∧
    (lookupA (saveAccountDetails nofail nofail nofail 5 stW
        [⟨⟨9, "C", "c@x"⟩, []⟩]).1.refs (uidRefName 9) =
      some (encodeObj (GitObj.commit ⟨newSig 5, newSig 5, "update account",
        accountTreeHash ⟨9, "C", "c@x"⟩, []⟩))) := by
  refine ⟨?_, ?_, ?_⟩
  · have hc := ((C4_commit_skip_and_chain 5 stW infA (by decide) (by decide)).1
      (encodeObj acctCommitA) ⟨newSig 0, newSig 0, "update account", encodeObj acctTreeA, []⟩
      (by decide) (by decide)).1 (by decide)
    exact ⟨hc.1, hc.2.1⟩
  · exact (((C4_commit_skip_and_chain 5 stW infC (by decide) (by decide)).1
      (encodeObj acctCommitA) ⟨newSig 0, newSig 0, "update account", encodeObj acctTreeA, []⟩
      (by decide) (by decide)).2 (by decide)).2.2
  · exact ((C4_commit_skip_and_chain 5 stW ⟨⟨9, "C", "c@x"⟩, []⟩ (by decide) (by decide)).2
      (by decide)).2.2
